import Mathlib

/-!
Shallow embedding of `src/yolo-sample/train/fedavg_aggregate.py` (FedAvg
aggregation of edge-trained checkpoints) and proofs about it.

Modelling conventions:
* a tensor is a dense numeric array, modelled as a list of exact rationals;
  all scaling and accumulation arithmetic is exact;
* a state dict (the internal ParameterMap) is an insertion-ordered association
  list, mirroring Python's `OrderedDict`;
* `torch.load` and the filesystem are abstracted as explicit inputs: a loader
  function from artifact path to load outcome, a directory listing of parsed
  metadata files, and the set of artifact paths that exist on disk;
* Python exceptions become `Except` errors; an uncaught exception inside a
  function is that function's error result, and `main`'s catch-all turns any
  error into exit status 1.
-/

/-- Tensor values: a dense array of numbers, one list of exact rationals. -/
abbrev Tensor := List ℚ

/-- Scaling `value.clone() * weight` (lines 129 and 134): elementwise
multiplication of a tensor by a scalar. -/
def tscale (w : ℚ) (t : Tensor) : Tensor := t.map (fun x => x * w)

/-- Elementwise tensor addition, the `+=` of line 134 on same-shape tensors. -/
def tadd (a b : Tensor) : Tensor := List.zipWith (fun x y => x + y) a b

/-- ParameterMap / state dict: insertion-ordered mapping from tensor name to
tensor (`OrderedDict` in the source). -/
abbrev ParamMap := List (String × Tensor)

/-- Key list of a ParameterMap, in insertion order. -/
def keysOf (m : ParamMap) : List String := m.map Prod.fst

/-- Membership test `key in aggregated_state_dict` (line 133). -/
def containsKey (m : ParamMap) (k : String) : Bool := (keysOf m).contains k

/-- In-place update `aggregated_state_dict[key] += v` (line 134): rewrite the
value stored at key `k`, leaving every other entry and the key order alone. -/
def updateAdd (m : ParamMap) (k : String) (v : Tensor) : ParamMap :=
  m.map (fun kv => if kv.1 = k then (kv.1, tadd kv.2 v) else kv)

/-- Dictionary read `aggregated_state_dict[key]`: the value stored at `k`, if
any. -/
def lookupKey (k : String) : ParamMap → Option Tensor
  | [] => none
  | kv :: rest => if kv.1 = k then some kv.2 else lookupKey k rest

/-- Parsed content of one `edge_*.json` metadata record (the fields the script
reads at lines 52, 61-64, 101 and 159-165). -/
structure Metadata where
  node_id : String
  version : String
  num_images : ℕ
  epochs : ℕ
  model_path : String
deriving DecidableEq

/-- Shapes a loaded checkpoint container can present, as dispatched at lines
113-118: a dict holding a model object under a model key, an object exposing a
state-dict view, a mapping already in state-dict form, or anything else (a
value that is not a named-tensor mapping at all). -/
inductive Checkpoint where
  | wrapped (sd : ParamMap)
  | stateObj (sd : ParamMap)
  | rawMap (sd : ParamMap)
  | other
deriving DecidableEq

/-- Result of the format dispatch at lines 113-118. The `else` branch at line
118 assigns the container itself; `opaqueVal` models that assignment when the
container is not a named-tensor mapping. No error is raised by the dispatch:
for such a value the later `state_dict.items()` call (line 128 or 132, outside
the `try`) raises. -/
inductive ExtractResult where
  | ok (sd : ParamMap)
  | opaqueVal
deriving DecidableEq

/-- The checkpoint-format dispatch of lines 113-118. Every recognized shape
yields its state dict; any other value is passed through unchanged. -/
def extract_state_dict : Checkpoint → ExtractResult
  | .wrapped sd => .ok sd
  | .stateObj sd => .ok sd
  | .rawMap sd => .ok sd
  | .other => .opaqueVal

/-- Outcome of `torch.load(model_path, ...)` together with the rest of the
`try` block of lines 109-119: either some statement in the block raised (the
`except` at line 120 catches it and the contribution is skipped), or a
checkpoint container was produced. -/
inductive LoadOutcome where
  | loadError
  | loaded (c : Checkpoint)
deriving DecidableEq

/-- Errors that can escape `fedavg_aggregate`: the explicit `ValueError` at
line 141 when no model was aggregated, the `ZeroDivisionError` at line 102
when `total_samples` is zero, and the `AttributeError` raised at line 128 or
132 when `state_dict` is not a mapping (both uncaught inside the function). -/
inductive AggError where
  | noModels
  | divByZero
  | attrError
deriving DecidableEq

/-- Line 90: `total_samples = sum(metadata['num_images'] for _, metadata in
models_data)`, summed over the whole input list. -/
def totalSamples (models_data : List (String × Metadata)) : ℕ :=
  (models_data.map (fun pm => pm.2.num_images)).sum

/-- First model (lines 127-129): initialize the aggregate with every tensor of
the state dict scaled by the model's weight. -/
def initAgg (w : ℚ) (sd : ParamMap) : ParamMap :=
  sd.map (fun kv => (kv.1, tscale w kv.2))

/-- Subsequent models (lines 131-136): for each key of the incoming state
dict, add the weighted tensor into the aggregate if the key is already
present, otherwise warn and skip the key. -/
def accStep (agg : ParamMap) (w : ℚ) (sd : ParamMap) : ParamMap :=
  sd.foldl (fun acc kv =>
    if containsKey acc kv.1 then updateAdd acc kv.1 (tscale w kv.2) else acc) agg

/-- The main loop of `fedavg_aggregate` (lines 100-138), with `torch.load`
abstracted as `loader`. Each iteration first computes
`weight = num_samples / total_samples` (line 102, before any load), so a zero
`total` raises `ZeroDivisionError` on the first iteration. A failure inside
the `try` block is caught and the contribution skipped (lines 120-122). A
dispatch result that is not a mapping raises uncaught at `items()`. -/
def fedavgLoop (loader : String → LoadOutcome) (total : ℕ) :
    List (String × Metadata) → Option ParamMap → Except AggError (Option ParamMap)
  | [], agg => .ok agg
  | (path, md) :: rest, agg =>
    if total = 0 then .error .divByZero
    else
      match loader path with
      | .loadError => fedavgLoop loader total rest agg
      | .loaded c =>
        match extract_state_dict c with
        | .opaqueVal => .error .attrError
        | .ok sd =>
          let w : ℚ := (md.num_images : ℚ) / (total : ℚ)
          match agg with
          | none => fedavgLoop loader total rest (some (initAgg w sd))
          | some a => fedavgLoop loader total rest (some (accStep a w sd))

/-- Function `fedavg_aggregate(models_data)` (lines 71-143): run the loop over
the input list and raise `ValueError` (line 141) if nothing was aggregated. -/
def fedavg_aggregate (loader : String → LoadOutcome)
    (models_data : List (String × Metadata)) : Except AggError ParamMap :=
  match fedavgLoop loader (totalSamples models_data) models_data none with
  | .error e => .error e
  | .ok none => .error .noModels
  | .ok (some m) => .ok m

/-- One file of the metadata directory: its file name and its parsed JSON
content. -/
structure MetaFile where
  name : String
  content : Metadata
deriving DecidableEq

/-- The glob pattern `edge_*.json` of line 40 applied to a file name. -/
def edgeGlobMatch (s : String) : Bool :=
  "edge_".data.isPrefixOf s.data && ".json".data.isSuffixOf s.data

/-- Lexicographic code-point comparison of character lists: the string order
used by Python's `sorted` at line 48. -/
def charListLe : List Char → List Char → Bool
  | [], _ => true
  | _ :: _, [] => false
  | a :: as, b :: bs =>
    if a.toNat < b.toNat then true
    else if b.toNat < a.toNat then false
    else charListLe as bs

/-- Ordering of metadata files by file name. -/
def fileLe (a b : MetaFile) : Prop := charListLe a.name.data b.name.data = true

instance : DecidableRel fileLe := fun a b => by unfold fileLe; infer_instance

/-- Sorting `sorted(metadata_files)` of line 48: a stable sort of the metadata
files by file name. -/
def sortFiles (l : List MetaFile) : List MetaFile := List.insertionSort fileLe l

/-- The error `load_edge_models` can raise: the `ValueError` of line 43 when
no metadata file matches the glob. -/
inductive RegistryError where
  | registryEmpty
deriving DecidableEq

/-- Function `load_edge_models(models_dir)` (lines 29-68). The listing of the
metadata directory is the input `dir`; `existing` is the set of paths for
which `Path(model_path).exists()` holds. Records whose model file is missing
are warned about and skipped (lines 54-56); the rest are returned in sorted
file-name order as `(model_path, metadata)` pairs. -/
def load_edge_models (dir : List MetaFile) (existing : List String) :
    Except RegistryError (List (String × Metadata)) :=
  let metadata_files := dir.filter (fun f => edgeGlobMatch f.name)
  if metadata_files.isEmpty then .error .registryEmpty
  else .ok ((sortFiles metadata_files).filterMap (fun f =>
    if existing.contains f.content.model_path then
      some (f.content.model_path, f.content)
    else none))

/-- The `edge_models` provenance list written by `save_aggregated_model`
(lines 160-168): every entry of `models_data` appears, paired with the weight
`num_images / Σ num_images`. -/
def save_edge_models_provenance (models_data : List (String × Metadata)) :
    List (String × ℚ) :=
  models_data.map (fun pm =>
    (pm.2.node_id, (pm.2.num_images : ℚ) / (totalSamples models_data : ℚ)))

/-- The realized weight of each contribution actually merged: the loop's
`weight` value (line 102) for precisely those contributions that pass the load
and the format dispatch and hence reach the accumulation of lines 124-138. -/
def mergedWeights (loader : String → LoadOutcome)
    (models_data : List (String × Metadata)) : List ℚ :=
  models_data.filterMap (fun pm =>
    match loader pm.1 with
    | .loaded c =>
      match extract_state_dict c with
      | .ok _ => some ((pm.2.num_images : ℚ) / (totalSamples models_data : ℚ))
      | .opaqueVal => none
    | .loadError => none)

/-- The driver `main` (lines 198-250): returns the process exit status and,
on success, the merged ParameterMap handed to `save_aggregated_model` (`none`
when the run aborts before writing an artifact). Serialization itself is
abstracted as succeeding. -/
def mainRun (dir : List MetaFile) (existing : List String)
    (loader : String → LoadOutcome) : ℕ × Option ParamMap :=
  match load_edge_models dir existing with
  | .error _ => (1, none)
  | .ok models_data =>
    if models_data.length = 0 then (1, none)
    else
      match fedavg_aggregate loader models_data with
      | .error _ => (1, none)
      | .ok m => (0, some m)

/-- The state dict of the first contribution that loads and extracts
successfully: the one whose tensors initialize the running aggregate at lines
125-129. -/
def firstLoadedSD (loader : String → LoadOutcome) :
    List (String × Metadata) → Option ParamMap
  | [] => none
  | (path, _) :: rest =>
    match loader path with
    | .loadError => firstLoadedSD loader rest
    | .loaded c =>
      match extract_state_dict c with
      | .ok sd => some sd
      | .opaqueVal => none

/-- Whether `loader` produces, for path `p`, a checkpoint whose dispatch
yields a state-dict mapping: the condition under which that contribution
reaches the accumulation step of lines 124-138. -/
def loadsOk (loader : String → LoadOutcome) (p : String) : Bool :=
  match loader p with
  | .loaded c =>
    match extract_state_dict c with
    | .ok _ => true
    | .opaqueVal => false
  | .loadError => false

-- Helper lemmas about ParameterMap operations.

theorem keysOf_updateAdd (m : ParamMap) (k : String) (v : Tensor) :
    keysOf (updateAdd m k v) = keysOf m := by
  unfold keysOf updateAdd
  rw [List.map_map]
  apply List.map_congr_left
  intro kv _
  by_cases h : kv.1 = k <;> simp [h]

theorem keysOf_initAgg (w : ℚ) (sd : ParamMap) :
    keysOf (initAgg w sd) = keysOf sd := by
  unfold keysOf initAgg
  rw [List.map_map]
  rfl

theorem keysOf_accStep (a : ParamMap) (w : ℚ) (sd : ParamMap) :
    keysOf (accStep a w sd) = keysOf a := by
  induction sd generalizing a with
  | nil => rfl
  | cons kv rest ih =>
    unfold accStep
    rw [List.foldl_cons]
    by_cases h : containsKey a kv.1
    · simp only [h, if_pos]
      have := ih (updateAdd a kv.1 (tscale w kv.2))
      unfold accStep at this
      rw [this, keysOf_updateAdd]
    · simp only [h]
      have := ih a
      unfold accStep at this
      simpa [h] using this

theorem lookup_updateAdd_ne (m : ParamMap) (k k' : String) (v : Tensor)
    (h : k ≠ k') : lookupKey k (updateAdd m k' v) = lookupKey k m := by
  have h' : ¬ k' = k := fun he => h he.symm
  induction m with
  | nil => rfl
  | cons kv rest ih =>
    obtain ⟨a, b⟩ := kv
    by_cases hk : a = k'
    · simp [updateAdd, lookupKey, hk, h'] at ih ⊢
      exact ih
    · by_cases hbe : a = k
      · simp [updateAdd, lookupKey, hk, hbe, h]
      · simp [updateAdd, lookupKey, hk, hbe] at ih ⊢
        exact ih

theorem lookup_accStep_not_mem (a : ParamMap) (w : ℚ) (sd : ParamMap)
    (k : String) (h : k ∉ keysOf sd) :
    lookupKey k (accStep a w sd) = lookupKey k a := by
  induction sd generalizing a with
  | nil => rfl
  | cons kv rest ih =>
    have hk : k ≠ kv.1 := by
      intro he
      exact h (by simp [keysOf, he])
    have hr : k ∉ keysOf rest := by
      intro hm
      exact h (by simp [keysOf] at hm ⊢; exact Or.inr hm)
    unfold accStep
    rw [List.foldl_cons]
    by_cases hc : containsKey a kv.1
    · simp only [hc, if_pos]
      have := ih (updateAdd a kv.1 (tscale w kv.2)) hr
      unfold accStep at this
      rw [this, lookup_updateAdd_ne _ _ _ _ hk]
    · simp only [hc]
      have := ih a hr
      unfold accStep at this
      simpa [hc] using this

-- Helper lemmas about tensors and the scale-by-zero step.

theorem tscale_one (t : Tensor) : tscale 1 t = t := by
  simp [tscale]

theorem initAgg_one (sd : ParamMap) : initAgg 1 sd = sd := by
  simp [initAgg, tscale_one]

theorem tadd_tscale_zero (t v : Tensor) (h : t.length = v.length) :
    tadd t (tscale 0 v) = t := by
  induction t generalizing v with
  | nil => simp [tadd]
  | cons x xs ih =>
    cases v with
    | nil => simp at h
    | cons y ys =>
      show (x + y * 0) :: tadd xs (tscale 0 ys) = x :: xs
      rw [mul_zero, add_zero, ih ys (by simpa using h)]

theorem updateAdd_tscale_zero (a : ParamMap) (k : String) (v : Tensor)
    (h : ∀ kv ∈ a, kv.1 = k → kv.2.length = v.length) :
    updateAdd a k (tscale 0 v) = a := by
  induction a with
  | nil => rfl
  | cons kv rest ih =>
    unfold updateAdd
    rw [List.map_cons]
    have htail : List.map (fun kv => if kv.1 = k then (kv.1, tadd kv.2 (tscale 0 v)) else kv) rest
        = rest := by
      have := ih (fun q hq hqk => h q (List.mem_cons_of_mem _ hq) hqk)
      unfold updateAdd at this
      exact this
    rw [htail]
    by_cases hk : kv.1 = k
    · rw [if_pos hk, tadd_tscale_zero kv.2 v (h kv (List.mem_cons_self _ _) hk)]
    · rw [if_neg hk]

theorem accStep_zero (a sd : ParamMap)
    (h : ∀ kv ∈ sd, ∀ kv' ∈ a, kv'.1 = kv.1 → kv'.2.length = kv.2.length) :
    accStep a 0 sd = a := by
  induction sd with
  | nil => rfl
  | cons kv rest ih =>
    unfold accStep
    rw [List.foldl_cons]
    have hstep : (if containsKey a kv.1 then updateAdd a kv.1 (tscale 0 kv.2) else a) = a := by
      by_cases hc : containsKey a kv.1
      · rw [if_pos hc]
        exact updateAdd_tscale_zero a kv.1 kv.2
          (fun q hq hqk => h kv (List.mem_cons_self _ _) q hq hqk)
      · rw [if_neg hc]
    rw [hstep]
    have := ih (fun q hq q' hq' hqk => h q (List.mem_cons_of_mem _ hq) q' hq' hqk)
    unfold accStep at this
    exact this

-- Helper lemmas about the aggregation loop.

theorem fedavgLoop_all_loadError (loader : String → LoadOutcome) (total : ℕ)
    (l : List (String × Metadata)) (agg : Option ParamMap) (ht : total ≠ 0)
    (h : ∀ pm ∈ l, loader pm.1 = .loadError) :
    fedavgLoop loader total l agg = .ok agg := by
  induction l with
  | nil => rfl
  | cons pm rest ih =>
    obtain ⟨path, md⟩ := pm
    have hp : loader path = .loadError := h (path, md) (List.mem_cons_self _ _)
    unfold fedavgLoop
    rw [if_neg ht, hp]
    exact ih (fun q hq => h q (List.mem_cons_of_mem _ hq))

theorem fedavgLoop_ne_divByZero (loader : String → LoadOutcome) (total : ℕ)
    (l : List (String × Metadata)) (agg : Option ParamMap) (ht : total ≠ 0) :
    fedavgLoop loader total l agg ≠ .error .divByZero := by
  induction l generalizing agg with
  | nil => simp [fedavgLoop]
  | cons pm rest ih =>
    obtain ⟨path, md⟩ := pm
    unfold fedavgLoop
    rw [if_neg ht]
    cases hl : loader path with
    | loadError => exact ih agg
    | loaded c =>
      cases c with
      | wrapped sd =>
        cases agg with
        | none => exact ih _
        | some a => exact ih _
      | stateObj sd =>
        cases agg with
        | none => exact ih _
        | some a => exact ih _
      | rawMap sd =>
        cases agg with
        | none => exact ih _
        | some a => exact ih _
      | other => simp [extract_state_dict]

theorem fedavgLoop_some_keys (loader : String → LoadOutcome) (total : ℕ) :
    ∀ (l : List (String × Metadata)) (a m : ParamMap),
      fedavgLoop loader total l (some a) = .ok (some m) → keysOf m = keysOf a := by
  intro l
  induction l with
  | nil =>
    intro a m h
    simp [fedavgLoop] at h
    rw [h]
  | cons pm rest ih =>
    intro a m h
    obtain ⟨path, md⟩ := pm
    by_cases ht : total = 0
    · unfold fedavgLoop at h
      rw [if_pos ht] at h
      exact absurd h (by simp)
    · unfold fedavgLoop at h
      rw [if_neg ht] at h
      cases hl : loader path with
      | loadError =>
        rw [hl] at h
        exact ih a m h
      | loaded c =>
        rw [hl] at h
        cases c with
        | wrapped sd =>
          have := ih _ m h
          rw [this, keysOf_accStep]
        | stateObj sd =>
          have := ih _ m h
          rw [this, keysOf_accStep]
        | rawMap sd =>
          have := ih _ m h
          rw [this, keysOf_accStep]
        | other => exact absurd h (by simp [extract_state_dict])

theorem fedavgLoop_none_keys (loader : String → LoadOutcome) (total : ℕ) :
    ∀ (l : List (String × Metadata)) (m : ParamMap),
      fedavgLoop loader total l none = .ok (some m) →
      ∃ sd, firstLoadedSD loader l = some sd ∧ keysOf m = keysOf sd := by
  intro l
  induction l with
  | nil =>
    intro m h
    simp [fedavgLoop] at h
  | cons pm rest ih =>
    intro m h
    obtain ⟨path, md⟩ := pm
    by_cases ht : total = 0
    · unfold fedavgLoop at h
      rw [if_pos ht] at h
      exact absurd h (by simp)
    · unfold fedavgLoop at h
      rw [if_neg ht] at h
      cases hl : loader path with
      | loadError =>
        rw [hl] at h
        obtain ⟨sd, h1, h2⟩ := ih m h
        exact ⟨sd, by simp [firstLoadedSD, hl, h1], h2⟩
      | loaded c =>
        rw [hl] at h
        cases c with
        | wrapped sd =>
          refine ⟨sd, by simp [firstLoadedSD, hl, extract_state_dict], ?_⟩
          have := fedavgLoop_some_keys loader total rest _ m h
          rw [this, keysOf_initAgg]
        | stateObj sd =>
          refine ⟨sd, by simp [firstLoadedSD, hl, extract_state_dict], ?_⟩
          have := fedavgLoop_some_keys loader total rest _ m h
          rw [this, keysOf_initAgg]
        | rawMap sd =>
          refine ⟨sd, by simp [firstLoadedSD, hl, extract_state_dict], ?_⟩
          have := fedavgLoop_some_keys loader total rest _ m h
          rw [this, keysOf_initAgg]
        | other => exact absurd h (by simp [extract_state_dict])

-- Helper lemmas about the realized weight list.

theorem mergedWeights_all_ok (loader : String → LoadOutcome) (t : ℚ) :
    ∀ (l : List (String × Metadata)), (∀ pm ∈ l, loadsOk loader pm.1 = true) →
      (l.filterMap (fun pm =>
        match loader pm.1 with
        | .loaded c =>
          match extract_state_dict c with
          | .ok _ => some ((pm.2.num_images : ℚ) / t)
          | .opaqueVal => none
        | .loadError => none))
      = l.map (fun pm => (pm.2.num_images : ℚ) / t) := by
  intro l
  induction l with
  | nil => intro _; rfl
  | cons pm rest ih =>
    intro hall
    have h1 := hall pm (List.mem_cons_self _ _)
    have ihr := ih (fun q hq => hall q (List.mem_cons_of_mem _ hq))
    cases hl : loader pm.1 with
    | loadError => simp [loadsOk, hl] at h1
    | loaded c =>
      cases c with
      | wrapped sd =>
        have he : extract_state_dict (Checkpoint.wrapped sd) = .ok sd := rfl
        simp [List.filterMap_cons, hl, he, ihr]
      | stateObj sd =>
        have he : extract_state_dict (Checkpoint.stateObj sd) = .ok sd := rfl
        simp [List.filterMap_cons, hl, he, ihr]
      | rawMap sd =>
        have he : extract_state_dict (Checkpoint.rawMap sd) = .ok sd := rfl
        simp [List.filterMap_cons, hl, he, ihr]
      | other => simp [loadsOk, hl, extract_state_dict] at h1

theorem sum_weights_eq_one (l : List (String × Metadata))
    (ht : totalSamples l ≠ 0) :
    (l.map (fun pm => (pm.2.num_images : ℚ) / (totalSamples l : ℚ))).sum = 1 := by
  have hcast : ((totalSamples l : ℕ) : ℚ) ≠ 0 := Nat.cast_ne_zero.mpr ht
  simp only [div_eq_mul_inv]
  rw [List.sum_map_mul_right]
  have hsum : (l.map (fun pm => ((pm.2.num_images : ℕ) : ℚ))).sum
      = ((totalSamples l : ℕ) : ℚ) := by
    rw [totalSamples, Nat.cast_list_sum, List.map_map]
    rfl
  rw [hsum, mul_inv_cancel₀ hcast]

-- Helper lemmas about the lexicographic file-name order and the sort.

theorem charListLe_total : ∀ a b : List Char,
    charListLe a b = true ∨ charListLe b a = true
  | [], _ => Or.inl rfl
  | _ :: _, [] => Or.inr rfl
  | a :: as, b :: bs => by
    by_cases h1 : a.toNat < b.toNat
    · exact Or.inl (by simp [charListLe, h1])
    · by_cases h2 : b.toNat < a.toNat
      · exact Or.inr (by simp [charListLe, h2])
      · rcases charListLe_total as bs with h | h
        · exact Or.inl (by simp [charListLe, h1, h2, h])
        · exact Or.inr (by simp [charListLe, h1, h2, h])

theorem charListLe_trans : ∀ a b c : List Char,
    charListLe a b = true → charListLe b c = true → charListLe a c = true
  | [], _, _ => fun _ _ => rfl
  | _ :: _, [], _ => fun h _ => by simp [charListLe] at h
  | _ :: _, _ :: _, [] => fun _ h => by simp [charListLe] at h
  | a :: as, b :: bs, c :: cs => fun h1 h2 => by
    by_cases hab : a.toNat < b.toNat
    · by_cases hbc : b.toNat < c.toNat
      · have hac : a.toNat < c.toNat := Nat.lt_trans hab hbc
        simp [charListLe, hac]
      · by_cases hcb : c.toNat < b.toNat
        · simp [charListLe, hbc, hcb] at h2
        · have hac : a.toNat < c.toNat := by omega
          simp [charListLe, hac]
    · by_cases hba : b.toNat < a.toNat
      · simp [charListLe, hab, hba] at h1
      · have h1' : charListLe as bs = true := by
          simpa [charListLe, hab, hba] using h1
        by_cases hbc : b.toNat < c.toNat
        · have hac : a.toNat < c.toNat := by omega
          simp [charListLe, hac]
        · by_cases hcb : c.toNat < b.toNat
          · simp [charListLe, hbc, hcb] at h2
          · have h2' : charListLe bs cs = true := by
              simpa [charListLe, hbc, hcb] using h2
            have hac : ¬ a.toNat < c.toNat := by omega
            have hca : ¬ c.toNat < a.toNat := by omega
            simp [charListLe, hac, hca, charListLe_trans as bs cs h1' h2']

theorem charListLe_antisymm : ∀ a b : List Char,
    charListLe a b = true → charListLe b a = true → a = b
  | [], [] => fun _ _ => rfl
  | [], _ :: _ => fun _ h => by simp [charListLe] at h
  | _ :: _, [] => fun h _ => by simp [charListLe] at h
  | a :: as, b :: bs => fun h1 h2 => by
    by_cases hab : a.toNat < b.toNat
    · have hba : ¬ b.toNat < a.toNat := by omega
      simp [charListLe, hab, hba] at h2
    · by_cases hba : b.toNat < a.toNat
      · simp [charListLe, hab, hba] at h1
      · have heq : a.toNat = b.toNat := by omega
        have hchar : a = b := Char.ext (UInt32.ext heq)
        have h1' : charListLe as bs = true := by
          simpa [charListLe, hab, hba] using h1
        have h2' : charListLe bs as = true := by
          simpa [charListLe, hab, hba] using h2
        rw [hchar, charListLe_antisymm as bs h1' h2']

theorem sortFiles_perm (l : List MetaFile) : (sortFiles l).Perm l :=
  List.perm_insertionSort fileLe l

theorem sortFiles_sorted (l : List MetaFile) : List.Pairwise fileLe (sortFiles l) := by
  haveI : IsTotal MetaFile fileLe := ⟨fun a b => charListLe_total _ _⟩
  haveI : IsTrans MetaFile fileLe := ⟨fun a b c => charListLe_trans _ _ _⟩
  exact List.sorted_insertionSort fileLe l

theorem sortedFiles_unique : ∀ l₁ l₂ : List MetaFile, l₁.Perm l₂ →
    List.Pairwise fileLe l₁ → List.Pairwise fileLe l₂ →
    (l₁.map MetaFile.name).Nodup → l₁ = l₂
  | [], l₂ => fun hp _ _ _ => (hp.nil_eq).symm ▸ rfl
  | a :: t₁, [] => fun hp _ _ _ => by
    have := hp.eq_nil
    simp at this
  | a :: t₁, b :: t₂ => fun hp hs₁ hs₂ hn => by
    have hab : a = b := by
      by_contra hne
      have haIn : a ∈ b :: t₂ := hp.mem_iff.mp (List.mem_cons_self a t₁)
      have haT₂ : a ∈ t₂ := by
        cases List.mem_cons.mp haIn with
        | inl h => exact absurd h hne
        | inr h => exact h
      have hbIn : b ∈ a :: t₁ := hp.symm.mem_iff.mp (List.mem_cons_self b t₂)
      have hbT₁ : b ∈ t₁ := by
        cases List.mem_cons.mp hbIn with
        | inl h => exact absurd h.symm hne
        | inr h => exact h
      have hle₁ : fileLe a b := (List.pairwise_cons.mp hs₁).1 b hbT₁
      have hle₂ : fileLe b a := (List.pairwise_cons.mp hs₂).1 a haT₂
      have hname : a.name = b.name :=
        String.ext (charListLe_antisymm _ _ hle₁ hle₂)
      have hmem : a.name ∈ t₁.map MetaFile.name :=
        List.mem_map.mpr ⟨b, hbT₁, hname.symm⟩
      have hnot : a.name ∉ t₁.map MetaFile.name := by
        rw [List.map_cons] at hn
        exact (List.nodup_cons.mp hn).1
      exact hnot hmem
    subst hab
    have hp' := hp.cons_inv
    have ht : t₁ = t₂ := by
      apply sortedFiles_unique t₁ t₂ hp'
      · exact (List.pairwise_cons.mp hs₁).2
      · exact (List.pairwise_cons.mp hs₂).2
      · rw [List.map_cons] at hn
        exact (List.nodup_cons.mp hn).2
    rw [ht]

theorem sortFiles_eq_of_perm (l₁ l₂ : List MetaFile) (hp : l₁.Perm l₂)
    (hn : (l₁.map MetaFile.name).Nodup) : sortFiles l₁ = sortFiles l₂ := by
  apply sortedFiles_unique
  · exact (sortFiles_perm l₁).trans (hp.trans (sortFiles_perm l₂).symm)
  · exact sortFiles_sorted l₁
  · exact sortFiles_sorted l₂
  · exact (((sortFiles_perm l₁).map MetaFile.name).nodup_iff).mpr hn

theorem load_edge_models_perm (dir₁ dir₂ : List MetaFile) (ex : List String)
    (hp : dir₁.Perm dir₂) (hn : (dir₁.map MetaFile.name).Nodup) :
    load_edge_models dir₁ ex = load_edge_models dir₂ ex := by
  have hpf : (dir₁.filter (fun f => edgeGlobMatch f.name)).Perm
      (dir₂.filter (fun f => edgeGlobMatch f.name)) := hp.filter _
  have hnf : ((dir₁.filter (fun f => edgeGlobMatch f.name)).map MetaFile.name).Nodup :=
    hn.sublist ((List.filter_sublist dir₁).map MetaFile.name)
  have hsf : sortFiles (dir₁.filter (fun f => edgeGlobMatch f.name))
      = sortFiles (dir₂.filter (fun f => edgeGlobMatch f.name)) :=
    sortFiles_eq_of_perm _ _ hpf hnf
  unfold load_edge_models
  by_cases h1 : dir₁.filter (fun f => edgeGlobMatch f.name) = []
  · have h2 : dir₂.filter (fun f => edgeGlobMatch f.name) = [] := by
      have := h1 ▸ hpf
      exact this.symm.eq_nil
    rw [h1, h2]
  · have h2 : dir₂.filter (fun f => edgeGlobMatch f.name) ≠ [] := by
      intro he
      exact h1 (he ▸ hpf.symm).symm.eq_nil
    simp only [List.isEmpty_iff, h1, h2, if_false, ite_false, hsf]

-- Claim theorems.

/-- C4: if every contribution fails to load (so the sequence of successfully
loaded contributions is empty after loading), `fedavg_aggregate` raises the
no-models `ValueError` and the driver returns exit status 1 without producing
an output artifact. -/
theorem c4_all_loads_fail (dir : List MetaFile) (ex : List String)
    (loader : String → LoadOutcome) (mds : List (String × Metadata))
    (hload : load_edge_models dir ex = .ok mds) (hne : mds ≠ [])
    (ht : totalSamples mds ≠ 0) (hall : ∀ pm ∈ mds, loader pm.1 = .loadError) :
    fedavg_aggregate loader mds = .error .noModels ∧
    mainRun dir ex loader = (1, none) := by
  have hfa : fedavg_aggregate loader mds = .error .noModels := by
    unfold fedavg_aggregate
    rw [fedavgLoop_all_loadError loader _ mds none ht hall]
  refine ⟨hfa, ?_⟩
  unfold mainRun
  rw [hload]
  have hlen : ¬ mds.length = 0 := by
    intro h
    exact hne (List.length_eq_zero.mp h)
  simp only [hlen, if_false, ite_false, hfa]

/-- C4 witness: one registered contribution whose artifact exists but whose
checkpoint fails to load ends with the no-models error and exit status 1. -/
theorem c4_all_loads_fail_witness :
    fedavg_aggregate (fun _ => .loadError) [("pW", ⟨"W", "v1", 4, 2, "pW"⟩)]
      = .error .noModels ∧
    mainRun [⟨"edge_w.json", ⟨"W", "v1", 4, 2, "pW"⟩⟩] ["pW"] (fun _ => .loadError)
      = (1, none) :=
  c4_all_loads_fail [⟨"edge_w.json", ⟨"W", "v1", 4, 2, "pW"⟩⟩] ["pW"]
    (fun _ => .loadError) [("pW", ⟨"W", "v1", 4, 2, "pW"⟩)]
    rfl (by decide) (by decide) (fun pm _ => rfl)

/-- C5: the registry reader fails with the registry-empty error exactly when
no metadata record matches the edge glob; every returned pair points at an
existing artifact; a matching record with an existing artifact is kept; and
when matching records exist the reader returns normally so the run continues
over the remaining contributions. -/
theorem c5_registry (dir : List MetaFile) (ex : List String) :
    (load_edge_models dir ex = .error .registryEmpty ↔
      dir.filter (fun f => edgeGlobMatch f.name) = []) ∧
    (∀ res, load_edge_models dir ex = .ok res →
      ∀ pr ∈ res, ex.contains pr.1 = true) ∧
    (∀ res f, load_edge_models dir ex = .ok res → f ∈ dir →
      edgeGlobMatch f.name = true → ex.contains f.content.model_path = true →
      (f.content.model_path, f.content) ∈ res) ∧
    (dir.filter (fun f => edgeGlobMatch f.name) ≠ [] →
      ∃ res, load_edge_models dir ex = .ok res) := by
  by_cases h : dir.filter (fun f => edgeGlobMatch f.name) = []
  · refine ⟨?_, ?_, ?_, ?_⟩
    · unfold load_edge_models
      simp [List.isEmpty_iff, h]
    · intro res hres
      unfold load_edge_models at hres
      simp [List.isEmpty_iff, h] at hres
    · intro res f hres _ _ _
      unfold load_edge_models at hres
      simp [List.isEmpty_iff, h] at hres
    · intro hne
      exact absurd h hne
  · have hok : load_edge_models dir ex =
        .ok ((sortFiles (dir.filter (fun f => edgeGlobMatch f.name))).filterMap (fun f =>
          if ex.contains f.content.model_path then
            some (f.content.model_path, f.content)
          else none)) := by
      unfold load_edge_models
      simp [List.isEmpty_iff, h]
    refine ⟨?_, ?_, ?_, ?_⟩
    · rw [hok]
      simp [h]
    · intro res hres pr hpr
      rw [hok] at hres
      injection hres with hres'
      rw [← hres'] at hpr
      obtain ⟨f, _, hf⟩ := List.mem_filterMap.mp hpr
      by_cases hc : ex.contains f.content.model_path = true
      · rw [if_pos hc] at hf
        have hpe := (Option.some.injEq _ _).mp hf
        rw [← hpe]
        exact hc
      · rw [if_neg hc] at hf
        exact absurd hf (by simp)
    · intro res f hres hfd hfm hfc
      rw [hok] at hres
      injection hres with hres'
      rw [← hres']
      apply List.mem_filterMap.mpr
      refine ⟨f, ?_, ?_⟩
      · have hfil : f ∈ dir.filter (fun f => edgeGlobMatch f.name) :=
          List.mem_filter.mpr ⟨hfd, hfm⟩
        exact ((sortFiles_perm _).mem_iff).mpr hfil
      · rw [if_pos hfc]
    · intro _
      exact ⟨_, hok⟩

/-- C5 witness: a directory with one matching record whose artifact exists and
one non-matching file returns normally. -/
theorem c5_registry_witness :
    ∃ res, load_edge_models
      [⟨"edge_b.json", ⟨"B", "v1", 2, 1, "pmB"⟩⟩, ⟨"notes.txt", ⟨"C", "v1", 3, 1, "pmC"⟩⟩]
      ["pmB"] = .ok res :=
  (c5_registry
    [⟨"edge_b.json", ⟨"B", "v1", 2, 1, "pmB"⟩⟩, ⟨"notes.txt", ⟨"C", "v1", 3, 1, "pmC"⟩⟩]
    ["pmB"]).2.2.2 (by decide)

/-- C6: in a later contribution's accumulation pass, a key of the incoming
state dict that is absent from the running aggregate is skipped and never
added, and a key of the aggregate absent from the incoming state dict keeps
its current value unchanged by that pass. -/
theorem c6_key_policy (a sd : ParamMap) (w : ℚ) (k : String) :
    (k ∈ keysOf sd → k ∉ keysOf a → k ∉ keysOf (accStep a w sd)) ∧
    (k ∉ keysOf sd → lookupKey k (accStep a w sd) = lookupKey k a) := by
  constructor
  · intro _ hka
    rw [keysOf_accStep]
    exact hka
  · intro hks
    exact lookup_accStep_not_mem a w sd k hks

/-- C6 witness: an aggregate holding only key t, merged with a contribution
holding only key u, neither gains key u nor changes the value at key t. -/
theorem c6_key_policy_witness :
    ("u" ∉ keysOf (accStep [("t", [1])] (1/2) [("u", [2])])) ∧
    lookupKey "t" (accStep [("t", [1])] (1/2) [("u", [2])]) = lookupKey "t" [("t", [1])] :=
  ⟨(c6_key_policy [("t", [1])] [("u", [2])] (1/2) "u").1 (by decide) (by decide),
   (c6_key_policy [("t", [1])] [("u", [2])] (1/2) "t").2 (by decide)⟩

/-- C7: the driver's result, including the merged tensors, is the same for any
two directory enumerations of the same metadata files (with distinct file
names), because the reader sorts records by file name before processing; so
two runs over identical, unchanged inputs produce identical merged values. -/
theorem c7_deterministic (dir₁ dir₂ : List MetaFile) (ex : List String)
    (loader : String → LoadOutcome) (hp : dir₁.Perm dir₂)
    (hn : (dir₁.map MetaFile.name).Nodup) :
    mainRun dir₁ ex loader = mainRun dir₂ ex loader := by
  unfold mainRun
  rw [load_edge_models_perm dir₁ dir₂ ex hp hn]

/-- C7 witness: two opposite enumeration orders of the same two metadata files
give the same run result. -/
theorem c7_deterministic_witness :
    mainRun [⟨"edge_2.json", ⟨"B", "v1", 1, 1, "q2"⟩⟩, ⟨"edge_1.json", ⟨"A", "v1", 1, 1, "q1"⟩⟩]
      [] (fun _ => .loadError)
    = mainRun [⟨"edge_1.json", ⟨"A", "v1", 1, 1, "q1"⟩⟩, ⟨"edge_2.json", ⟨"B", "v1", 1, 1, "q2"⟩⟩]
      [] (fun _ => .loadError) :=
  c7_deterministic
    [⟨"edge_2.json", ⟨"B", "v1", 1, 1, "q2"⟩⟩, ⟨"edge_1.json", ⟨"A", "v1", 1, 1, "q1"⟩⟩]
    [⟨"edge_1.json", ⟨"A", "v1", 1, 1, "q1"⟩⟩, ⟨"edge_2.json", ⟨"B", "v1", 1, 1, "q2"⟩⟩]
    [] (fun _ => .loadError) (by decide) (by decide)

/-- C8: aggregating an input of exactly one contribution, whose checkpoint
loads and extracts successfully and whose sample count is positive, returns
that contribution's ParameterMap exactly: its weight is one and scaling by one
is exact. -/
theorem c8_single_identity (loader : String → LoadOutcome) (p : String)
    (md : Metadata) (c : Checkpoint) (sd : ParamMap)
    (hn : md.num_images ≠ 0) (hl : loader p = .loaded c)
    (he : extract_state_dict c = .ok sd) :
    fedavg_aggregate loader [(p, md)] = .ok sd := by
  have hw : (md.num_images : ℚ) / (md.num_images : ℚ) = 1 :=
    div_self (Nat.cast_ne_zero.mpr hn)
  unfold fedavg_aggregate fedavgLoop
  simp only [totalSamples, List.map_cons, List.map_nil, List.sum_cons,
    List.sum_nil, add_zero, hn, if_false, ite_false, hl, he, hw, initAgg_one]
  rfl

/-- C8 witness: one contribution with two samples and tensor value four comes
back unchanged. -/
theorem c8_single_identity_witness :
    fedavg_aggregate (fun _ => .loaded (.rawMap [("t", [4])]))
      [("p8", ⟨"N", "v1", 2, 1, "p8"⟩)] = .ok [("t", [4])] :=
  c8_single_identity (fun _ => .loaded (.rawMap [("t", [4])])) "p8"
    ⟨"N", "v1", 2, 1, "p8"⟩ (.rawMap [("t", [4])]) [("t", [4])]
    (by decide) rfl rfl

/-- C9: when the discovered contributions are non-empty but their sample
counts sum to zero, `fedavg_aggregate` raises `ZeroDivisionError` while
computing the first weight, whatever the loader would have returned (no
checkpoint is consulted); and with a non-zero total the division error can
never occur. -/
theorem c9_zero_total :
    (∀ (loader : String → LoadOutcome) (e : String × Metadata)
      (rest : List (String × Metadata)), totalSamples (e :: rest) = 0 →
      fedavg_aggregate loader (e :: rest) = .error .divByZero) ∧
    (∀ (loader : String → LoadOutcome) (mds : List (String × Metadata)),
      totalSamples mds ≠ 0 → fedavg_aggregate loader mds ≠ .error .divByZero) := by
  constructor
  · intro loader e rest ht
    obtain ⟨p, md⟩ := e
    unfold fedavg_aggregate fedavgLoop
    simp only [ht, if_pos rfl, if_true, ite_true]
  · intro loader mds ht hcontra
    have hne := fedavgLoop_ne_divByZero loader (totalSamples mds) mds none ht
    unfold fedavg_aggregate at hcontra
    cases hloop : fedavgLoop loader (totalSamples mds) mds none with
    | error e =>
      rw [hloop] at hcontra
      simp only [] at hcontra
      have he : e = AggError.divByZero := by
        simpa using hcontra
      rw [he] at hloop
      exact hne hloop
    | ok o =>
      rw [hloop] at hcontra
      cases o with
      | none => simp at hcontra
      | some m => simp at hcontra

/-- C9 witness: one contribution with zero samples gives the division error
even though its checkpoint would not even load. -/
theorem c9_zero_total_witness :
    fedavg_aggregate (fun _ => .loadError) [("p0", ⟨"N", "v1", 0, 1, "p0"⟩)]
      = .error .divByZero :=
  c9_zero_total.1 (fun _ => .loadError) ("p0", ⟨"N", "v1", 0, 1, "p0"⟩) [] (by decide)

/-- C10: whenever aggregation succeeds, the merged ParameterMap has exactly
the keys of the first successfully loaded contribution's ParameterMap; no
later pass adds or removes a key. -/
theorem c10_keys_invariant (loader : String → LoadOutcome)
    (mds : List (String × Metadata)) (m : ParamMap)
    (h : fedavg_aggregate loader mds = .ok m) :
    ∃ sd, firstLoadedSD loader mds = some sd ∧ keysOf m = keysOf sd := by
  unfold fedavg_aggregate at h
  cases hloop : fedavgLoop loader (totalSamples mds) mds none with
  | error e =>
    rw [hloop] at h
    exact absurd h (by simp)
  | ok o =>
    cases o with
    | none =>
      rw [hloop] at h
      exact absurd h (by simp)
    | some m' =>
      rw [hloop] at h
      have hm : m' = m := by simpa using h
      subst hm
      exact fedavgLoop_none_keys loader (totalSamples mds) mds m' hloop

/-- C10 witness: a successful single-contribution run has exactly the keys of
the first loaded state dict. -/
theorem c10_keys_invariant_witness :
    ∃ sd, firstLoadedSD (fun _ => .loaded (.rawMap [("a", [2]), ("b", [3])]))
      [("p", ⟨"N", "v1", 2, 1, "p"⟩)] = some sd ∧
      keysOf [("a", [2]), ("b", [3])] = keysOf sd :=
  c10_keys_invariant (fun _ => .loaded (.rawMap [("a", [2]), ("b", [3])]))
    [("p", ⟨"N", "v1", 2, 1, "p"⟩)] [("a", [2]), ("b", [3])]
    (by norm_num [fedavg_aggregate, fedavgLoop, totalSamples, extract_state_dict,
      initAgg, tscale])

/-- C1 counterexample: the claim says the denominator counts only
contributions whose checkpoints successfully load, so realized weights sum to
one. Concretely, with contribution A (100 samples, loads) and contribution B
(300 samples, fails to load), `total_samples` is 400 — it includes B — the
only realized weight is 1/4, the realized weights miss one by far more than
any floating-point tolerance, and the merged tensor is scaled accordingly. -/
theorem c1_counterexample :
    totalSamples [("pA", ⟨"A", "v1", 100, 1, "pA"⟩), ("pB", ⟨"B", "v1", 300, 1, "pB"⟩)] = 400 ∧
    mergedWeights
      (fun p => if p = "pA" then .loaded (.rawMap [("t", [1])]) else .loadError)
      [("pA", ⟨"A", "v1", 100, 1, "pA"⟩), ("pB", ⟨"B", "v1", 300, 1, "pB"⟩)] = [1/4] ∧
    (1 : ℚ) - (mergedWeights
      (fun p => if p = "pA" then .loaded (.rawMap [("t", [1])]) else .loadError)
      [("pA", ⟨"A", "v1", 100, 1, "pA"⟩), ("pB", ⟨"B", "v1", 300, 1, "pB"⟩)]).sum
      > 1/1000000 ∧
    fedavg_aggregate
      (fun p => if p = "pA" then .loaded (.rawMap [("t", [1])]) else .loadError)
      [("pA", ⟨"A", "v1", 100, 1, "pA"⟩), ("pB", ⟨"B", "v1", 300, 1, "pB"⟩)]
      = .ok [("t", [1/4])] := by
  have hne : ¬ ("pB" : String) = "pA" := by decide
  refine ⟨by decide, ?_, ?_, ?_⟩
  · norm_num [mergedWeights, totalSamples, extract_state_dict,
      List.filterMap_cons, hne]
  · norm_num [mergedWeights, totalSamples, extract_state_dict,
      List.filterMap_cons, hne]
  · norm_num [fedavg_aggregate, fedavgLoop, totalSamples, extract_state_dict,
      initAgg, tscale, hne]

/-- C1 (amended): `total_samples` is computed over every entry of
`models_data`, including contributions whose checkpoints later fail to load;
the realized weights of the merged contributions are always non-negative, and
they sum to one exactly when every contribution's checkpoint loads and
extracts successfully. -/
theorem c1_amended_weights (loader : String → LoadOutcome)
    (models_data : List (String × Metadata))
    (hall : ∀ pm ∈ models_data, loadsOk loader pm.1 = true)
    (ht : totalSamples models_data ≠ 0) :
    (∀ w ∈ mergedWeights loader models_data, 0 ≤ w) ∧
    (mergedWeights loader models_data).sum = 1 := by
  have hrw : mergedWeights loader models_data
      = models_data.map (fun pm =>
          (pm.2.num_images : ℚ) / (totalSamples models_data : ℚ)) := by
    unfold mergedWeights
    exact mergedWeights_all_ok loader _ models_data hall
  rw [hrw]
  constructor
  · intro w hw
    obtain ⟨pm, _, he⟩ := List.mem_map.mp hw
    rw [← he]
    exact div_nonneg (Nat.cast_nonneg _) (Nat.cast_nonneg _)
  · exact sum_weights_eq_one models_data ht

/-- C1 witness: one contribution that loads successfully realizes the single
weight one. -/
theorem c1_amended_weights_witness :
    (∀ w ∈ mergedWeights (fun _ => .loaded (.rawMap [("t", [1])]))
      [("p1", ⟨"N", "v1", 3, 1, "p1"⟩)], 0 ≤ w) ∧
    (mergedWeights (fun _ => .loaded (.rawMap [("t", [1])]))
      [("p1", ⟨"N", "v1", 3, 1, "p1"⟩)]).sum = 1 :=
  c1_amended_weights (fun _ => .loaded (.rawMap [("t", [1])]))
    [("p1", ⟨"N", "v1", 3, 1, "p1"⟩)] (fun pm _ => rfl) (by decide)

/-- C2 counterexample: the claim says a zero-sample contribution is excluded
from aggregation and absent from the provenance weight list. Concretely, a
zero-sample contribution Z that loads first is processed with weight zero: its
extra key u is injected into the merged output (with a zeroed tensor), and Z
appears in the provenance weight list with weight zero. -/
theorem c2_counterexample :
    fedavg_aggregate
      (fun p => if p = "pz" then .loaded (.rawMap [("t", [1]), ("u", [5])])
        else if p = "pa" then .loaded (.rawMap [("t", [3])]) else .loadError)
      [("pz", ⟨"Z", "v1", 0, 1, "pz"⟩), ("pa", ⟨"A", "v1", 7, 1, "pa"⟩)]
      = .ok [("t", [3]), ("u", [0])] ∧
    ("Z", (0 : ℚ)) ∈ save_edge_models_provenance
      [("pz", ⟨"Z", "v1", 0, 1, "pz"⟩), ("pa", ⟨"A", "v1", 7, 1, "pa"⟩)] := by
  constructor
  · have hne : ¬ ("pa" : String) = "pz" := by decide
    have hut : ¬ ("u" : String) = "t" := by decide
    have hb : (("t" : String) == "t") = true := by decide
    norm_num [fedavg_aggregate, fedavgLoop, totalSamples, extract_state_dict,
      initAgg, accStep, tscale, tadd, updateAdd, containsKey, keysOf,
      List.contains_cons, hne, hut, hb]
  · norm_num [save_edge_models_provenance, totalSamples]

/-- C2 (amended): a zero-sample contribution is not excluded but
zero-weighted: it always appears in the provenance weight list with weight
zero, and an accumulation pass with weight zero over shape-compatible tensors
leaves the running aggregate exactly unchanged (it adds nothing to any merged
value, and nothing to the denominator). -/
theorem c2_amended_zero_sample :
    (∀ (models_data : List (String × Metadata)) (pm : String × Metadata),
      pm ∈ models_data → pm.2.num_images = 0 →
      (pm.2.node_id, (0 : ℚ)) ∈ save_edge_models_provenance models_data) ∧
    (∀ a sd : ParamMap,
      (∀ kv ∈ sd, ∀ kv' ∈ a, kv'.1 = kv.1 → kv'.2.length = kv.2.length) →
      accStep a 0 sd = a) := by
  constructor
  · intro mds pm hpm h0
    unfold save_edge_models_provenance
    apply List.mem_map.mpr
    refine ⟨pm, hpm, ?_⟩
    rw [h0]
    norm_num
  · exact accStep_zero

/-- C2 witness: a zero-sample node lands in the provenance list with weight
zero, and a weight-zero pass leaves a concrete aggregate untouched. -/
theorem c2_amended_zero_sample_witness :
    ("Z", (0 : ℚ)) ∈ save_edge_models_provenance [("pz", ⟨"Z", "v1", 0, 1, "pz"⟩)] ∧
    accStep [("t", [9])] 0 [("t", [4])] = [("t", [9])] :=
  ⟨c2_amended_zero_sample.1 [("pz", ⟨"Z", "v1", 0, 1, "pz"⟩)]
      ("pz", ⟨"Z", "v1", 0, 1, "pz"⟩) (List.mem_cons_self _ _) rfl,
   c2_amended_zero_sample.2 [("t", [9])] [("t", [4])] (by decide)⟩

/-- C3 counterexample: the claim says a loaded container matching no known
shape fails extraction with an unsupported-format error (a recoverable,
per-contribution condition). Concretely, the dispatch passes such a container
through without any error, and a run whose first contribution is such a
container aborts entirely with the uncaught attribute error — even though the
second contribution alone would aggregate fine. -/
theorem c3_counterexample :
    extract_state_dict .other = .opaqueVal ∧
    fedavg_aggregate
      (fun p => if p = "px" then .loaded .other
        else if p = "pa3" then .loaded (.rawMap [("t", [1])]) else .loadError)
      [("px", ⟨"X", "v1", 5, 1, "px"⟩), ("pa3", ⟨"A", "v1", 5, 1, "pa3"⟩)]
      = .error .attrError ∧
    fedavg_aggregate
      (fun p => if p = "px" then .loaded .other
        else if p = "pa3" then .loaded (.rawMap [("t", [1])]) else .loadError)
      [("pa3", ⟨"A", "v1", 5, 1, "pa3"⟩)] = .ok [("t", [1])] := by
  have hne : ¬ ("pa3" : String) = "px" := by decide
  refine ⟨rfl, ?_, ?_⟩
  · norm_num [fedavg_aggregate, fedavgLoop, totalSamples, extract_state_dict]
  · norm_num [fedavg_aggregate, fedavgLoop, totalSamples, extract_state_dict,
      initAgg, tscale, hne]

/-- C3 (amended): a loaded container that is neither a dict holding a model
object nor an object exposing a state dict is passed through unchanged as if
it were a raw mapping — no unsupported-format error exists — and when such a
container is not a mapping at all, aggregation aborts the whole run with the
uncaught attribute error instead of skipping that one contribution. -/
theorem c3_amended_no_format_error :
    extract_state_dict .other = .opaqueVal ∧
    (∀ (loader : String → LoadOutcome) (p : String) (md : Metadata)
      (rest : List (String × Metadata)),
      totalSamples ((p, md) :: rest) ≠ 0 → loader p = .loaded .other →
      fedavg_aggregate loader ((p, md) :: rest) = .error .attrError) := by
  refine ⟨rfl, ?_⟩
  intro loader p md rest ht hl
  unfold fedavg_aggregate fedavgLoop
  simp only [ht, if_false, ite_false, hl]
  rfl

/-- C3 witness: a single unrecognized non-mapping container aborts the run
with the attribute error. -/
theorem c3_amended_no_format_error_witness :
    fedavg_aggregate (fun _ => .loaded .other) [("p3", ⟨"N", "v1", 2, 1, "p3"⟩)]
      = .error .attrError :=
  c3_amended_no_format_error.2 (fun _ => .loaded .other) "p3"
    ⟨"N", "v1", 2, 1, "p3"⟩ [] (by decide) rfl
